import Mathlib

/-!
Shallow embedding of the data pipeline of the `Table` React component
(`src/components/Table/Table.js`): category/label derivation, record
normalization (object flattening), sorting, filtering, pagination, date
rendering and color-theme derivation.

JavaScript values are modelled by the inductive `JSVal`; JavaScript objects
(records and maps) are association lists in insertion order, which matches
the `for...in` / `Object.values` enumeration order for string keys.
JavaScript code that can throw (property access on `undefined`, calling
`toLowerCase` on a non-string) is modelled in the `Except String` monad.
-/

/-- A JavaScript value as it occurs in the table's content: strings, numbers,
booleans, `undefined`, and (one or more levels of) nested objects. -/
inductive JSVal where
  | vStr : String → JSVal
  | vNum : Int → JSVal
  | vBool : Bool → JSVal
  | vUndef : JSVal
  | vObj : List (String × JSVal) → JSVal

/-- A row of the table: a JavaScript object in insertion order. -/
abbrev JSRow := List (String × JSVal)

/-- JS property read `row[k]`: first entry wins, missing keys give `undefined`. -/
def jsGet (row : JSRow) (k : String) : JSVal :=
  (List.lookup k row).getD JSVal.vUndef

/-- `Object.prototype.hasOwnProperty` on an association-list object. -/
def jsHasOwn (row : List (String × JSVal)) (k : String) : Bool :=
  (List.lookup k row).isSome

/-- `String.prototype.toLowerCase` (ASCII, as used by the table's keys/values). -/
def strLower (s : String) : String :=
  String.mk (s.toList.map Char.toLower)

/-- Does `pat` occur at the start of `txt`? (helper for `strIncludes`). -/
def leadsWith : List Char → List Char → Bool
  | [], _ => true
  | _ :: _, [] => false
  | p :: ps, c :: cs => p == c && leadsWith ps cs

/-- Does `pat` occur anywhere in `txt`? (helper for `strIncludes`). -/
def includesFrom (pat : List Char) : List Char → Bool
  | [] => leadsWith pat []
  | t@(_ :: cs) => leadsWith pat t || includesFrom pat cs

/-- `String.prototype.includes`: `strIncludes s sub` is `s.includes(sub)`. -/
def strIncludes (s sub : String) : Bool :=
  includesFrom sub.toList s.toList

/-!
## Paginator (`separatePages`, Table.js lines 199–207)

The source loop is

    while (originalContent.length > 0) {
        slices.push(originalContent.slice(0, rowsDisplayed));
        originalContent = originalContent.slice(rowsDisplayed - 1, -1);
    }

`slice(a, -1)` takes the elements from index `a` up to, but excluding, the
last element, i.e. `(take (length - 1)) ∘ (drop a)` for `a ≥ 0`. The loop is
modelled with a fuel parameter equal to the initial length, which bounds the
number of iterations whenever `rowsDisplayed ≥ 1` (the selectable page sizes
are 10, 25, 50, 100), since each iteration strictly shortens the list;
`separatePagesGo_fuel` below proves the fuel is irrelevant beyond the length.
-/

/-- One `while` iteration of `separatePages`, with explicit fuel. -/
def separatePagesGo {α : Type} (rows : Nat) : Nat → List α → List (List α)
  | 0, _ => []
  | _, [] => []
  | fuel + 1, l@(_ :: _) =>
      l.take rows :: separatePagesGo rows fuel ((l.take (l.length - 1)).drop (rows - 1))

/-- `separatePages(content)` from the source, for page size `rows`. -/
def separatePages {α : Type} (rows : Nat) (content : List α) : List (List α) :=
  separatePagesGo rows content.length content

/-- Any fuel at least the length of the list computes the same pages, so the
`content.length` fuel used by `separatePages` is faithful to the source's
`while` loop. -/
theorem separatePagesGo_fuel {α : Type} (rows : Nat) :
    ∀ f1 f2 (l : List α), l.length ≤ f1 → l.length ≤ f2 →
      separatePagesGo rows f1 l = separatePagesGo rows f2 l := by
  intro f1
  induction f1 with
  | zero =>
      intro f2 l hl _
      have hnil : l = [] := List.length_eq_zero.mp (Nat.le_zero.mp hl)
      subst hnil
      cases f2 <;> rfl
  | succ n ih =>
      intro f2 l h1 h2
      match l, f2 with
      | [], f2 => cases f2 <;> rfl
      | x :: xs, f2 + 1 =>
          simp only [separatePagesGo]
          have hnext : (((x :: xs).take ((x :: xs).length - 1)).drop (rows - 1)).length
              ≤ xs.length := by
            simp only [List.length_drop, List.length_take, List.length_cons]
            omega
          exact congrArg _ (ih f2 _
            (Nat.le_trans hnext (by simpa using Nat.lt_succ_iff.mp (Nat.lt_of_lt_of_le
              (Nat.lt_succ_of_le (Nat.le_refl _)) h1)))
            (Nat.le_trans hnext (by simpa using Nat.lt_succ_iff.mp (Nat.lt_of_lt_of_le
              (Nat.lt_succ_of_le (Nat.le_refl _)) h2))))

/-- C1: for page size 10 and 23 records the source's `separatePages` does
produce 3 pages of sizes 10, 10, 3, but the pages are NOT a partition of the
input: `slice(rowsDisplayed - 1, -1)` keeps the element at index
`rowsDisplayed - 1` for the next page (records 9 and 18 appear twice) and
drops the last element of the remainder on every iteration (records 21 and 22
never appear), so the concatenation of the pages differs from the input. -/
theorem separatePages_overlap_bug :
    ((separatePages 10 (List.range 23)).map List.length = [10, 10, 3]) ∧
    ((separatePages 10 (List.range 23)).flatten ≠ List.range 23) ∧
    (List.count 9 (separatePages 10 (List.range 23)).flatten = 2) ∧
    (List.count 18 (separatePages 10 (List.range 23)).flatten = 2) ∧
    (21 ∉ (separatePages 10 (List.range 23)).flatten) ∧
    (22 ∉ (separatePages 10 (List.range 23)).flatten) := by
  decide

/-!
## Schema Deriver: label derivation (`defineCategories`, Table.js lines 46–56)

The source builds the label of a column key as

    let formattedCategory = category;
    for (const letter of category) {
        if (letter === letter.toUpperCase()) {
            formattedCategory = category.replace(letter, ` ${letter.toLowerCase()}`);
        }
    }
    formattedCategory = formattedCategory.replace(formattedCategory[0], formattedCategory[0].toUpperCase());

`String.prototype.replace` with a string pattern replaces only the first
occurrence; each loop iteration replaces in the ORIGINAL `category`, not in
the accumulated `formattedCategory`. On the empty string, `formattedCategory[0]`
is `undefined` and `undefined.toUpperCase()` throws, modelled as `Except.error`.
-/

/-- JS `s.replace(pat, rep)` for a single-character pattern: replace the first
occurrence of `pat`. -/
def replaceFirstChar (pat : Char) (rep : List Char) : List Char → List Char
  | [] => []
  | c :: cs => if c == pat then rep ++ cs else c :: replaceFirstChar pat rep cs

/-- String version of `replaceFirstChar`. -/
def jsReplaceChar (s : String) (pat : Char) (rep : String) : String :=
  String.mk (replaceFirstChar pat rep.toList s.toList)

/-- The label-derivation step of `defineCategories`: the formatted category of
one key, exactly as the source computes it. -/
def formatCategory (category : String) : Except String String :=
  let formatted := category.toList.foldl
    (fun acc letter =>
      if letter == letter.toUpper then
        jsReplaceChar category letter (String.mk [' ', letter.toLower])
      else acc)
    category
  match formatted.toList with
  | [] => Except.error "TypeError: Cannot read properties of undefined (reading toUpperCase)"
  | c0 :: _ => Except.ok (jsReplaceChar formatted c0 (String.mk [c0.toUpper]))

/-- C3: the spec's example `pastFavorite → Past favorite` holds, but a key with
several uppercase letters is NOT split before each of them: every loop
iteration restarts from the original key, so only the replacement for the LAST
uppercase letter survives, and `pastFavoriteColor` is rendered
`PastFavorite color` instead of the claimed `Past favorite color`. -/
theorem formatCategory_multiple_uppercase_bug :
    formatCategory "pastFavorite" = Except.ok "Past favorite" ∧
    formatCategory "pastFavoriteColor" = Except.ok "PastFavorite color" ∧
    "PastFavorite color" ≠ "Past favorite color" := by
  refine ⟨rfl, rfl, ?_⟩
  decide

/-!
## Color Theme Deriver (`customColorTheme` and its guard, Table.js lines 98–134)

`parseInt(s, 16)` is modelled on the alphanumeric slices that the source feeds
it: an optional `0x`/`0X` marker is stripped, then the longest leading run of
hex digits is read; an empty run is `NaN`, modelled as `Option.none`.
JavaScript's floating-point luminance arithmetic is modelled with exact
rationals; the channel values 0–255 keep the comparison far from any rounding
boundary. `NaN` channels make every comparison false, so the text color falls
to `"white"`, and the `rgba(...)` template strings render the channel as the
three letters `NaN`.
-/

/-- Value of one hex digit, or `Option.none` for a non-digit. -/
def hexDigitVal (c : Char) : Option Nat :=
  if c.isDigit then some (c.toNat - 48)
  else if 'a' ≤ c ∧ c ≤ 'f' then some (c.toNat - 87)
  else if 'A' ≤ c ∧ c ≤ 'F' then some (c.toNat - 55)
  else Option.none

/-- Accumulate the longest leading run of hex digits. -/
def hexAccum (acc : Nat) : List Char → Nat
  | [] => acc
  | c :: cs =>
      match hexDigitVal c with
      | some v => hexAccum (acc * 16 + v) cs
      | Option.none => acc

/-- `parseInt(s, 16)` on the alphanumeric slices used by `customColorTheme`:
`Option.none` models `NaN`. -/
def jsParseIntHex (s : String) : Option Nat :=
  let cs := if leadsWith ['0', 'x'] s.toList || leadsWith ['0', 'X'] s.toList
    then s.toList.drop 2 else s.toList
  match cs with
  | [] => Option.none
  | c :: _ =>
      match hexDigitVal c with
      | some _ => some (hexAccum 0 cs)
      | Option.none => Option.none

/-- `s.slice(a, b)` on a string, for `0 ≤ a ≤ b`. -/
def strSlice (s : String) (a b : Nat) : String :=
  String.mk ((s.toList.drop a).take (b - a))

/-- The shorthand-expansion loop of `customColorTheme`: iterate over the
characters of the ORIGINAL 4-character string, and for each non-`#` character
replace its first occurrence in the accumulated string by its doubling. -/
def expandShorthand (hex : String) : String :=
  if hex.length = 4 then
    hex.toList.foldl
      (fun acc letter =>
        if letter == '#' then acc
        else jsReplaceChar acc letter (String.mk [letter, letter]))
      hex
  else hex

/-- The derived theme: the source stores it as the CSS custom properties
`--bright`, `--light` and `--text`. -/
structure ColorTheme where
  bright : String
  light : String
  text : String
deriving DecidableEq, Repr

/-- How a channel appears inside the `rgba(...)` template literal: a number,
or the letters `NaN`. -/
def chanStr : Option Nat → String
  | some n => toString n
  | Option.none => "NaN"

/-- `customColorTheme(hex)` from the source (the theme it stores via
`setColorTheme`). -/
def customColorTheme (hex : String) : ColorTheme :=
  let newHex := expandShorthand hex
  let r := jsParseIntHex (strSlice newHex 1 3)
  let g := jsParseIntHex (strSlice newHex 3 5)
  let b := jsParseIntHex (strSlice newHex 5 7)
  let bright := "rgba(" ++ chanStr r ++ ", " ++ chanStr g ++ ", " ++ chanStr b ++ ", 1)"
  let light := "rgba(" ++ chanStr r ++ ", " ++ chanStr g ++ ", " ++ chanStr b ++ ", 0.2)"
  let text :=
    match r, g, b with
    | some rv, some gv, some bv =>
        if (0.2126 * (rv : ℚ) + 0.7152 * (gv : ℚ) + 0.0722 * (bv : ℚ)) / 255 > 0.5
        then "black" else "white"
    | _, _, _ => "white"
  ⟨bright, light, text⟩

/-- The validation pattern `^#[0-9a-zA-Z]{3}(?:[0-9a-zA-Z]{3})?$`: a `#`
followed by exactly 3 or 6 ASCII letters or digits. -/
def hexRegexTest (s : String) : Bool :=
  match s.toList with
  | '#' :: rest =>
      ((rest.length == 3) || (rest.length == 6)) && rest.all (fun c => c.isDigit || c.isAlpha)
  | _ => false

/-- The `useEffect` on `color` (lines 129–134): recompute the theme when the
pattern matches, otherwise leave the previous theme unchanged. An absent
`color` prop is `Option.none` (the regex does not match `"undefined"`). -/
def applyColorEffect (color : Option String) (theme : ColorTheme) : ColorTheme :=
  match color with
  | some c => if hexRegexTest c then customColorTheme c else theme
  | Option.none => theme

/-- C8: the shorthand expansion is NOT doubling of each hex digit. For the
valid shorthand `#aba`, the third loop iteration replaces the FIRST occurrence
of `a` in `#aabba` (index 1) instead of the trailing one, yielding `#aaabba`
instead of the doubling `#aabbaa`; the parsed channels and the derived
`bright` therefore differ from the ones the claim prescribes (the green
channel is `ab` = 171 instead of `bb` = 187). For distinct digits, e.g.
`#abc`, and for the full form the expansion is the expected one. -/
theorem customColorTheme_shorthand_expansion_bug :
    hexRegexTest "#aba" = true ∧
    expandShorthand "#aba" = "#aaabba" ∧
    expandShorthand "#aba" ≠ "#aabbaa" ∧
    (customColorTheme "#aba").bright = "rgba(170, 171, 186, 1)" ∧
    (customColorTheme "#aabbaa").bright = "rgba(170, 187, 170, 1)" ∧
    (customColorTheme "#aba").bright ≠ (customColorTheme "#aabbaa").bright :=
  ⟨rfl, rfl, by decide, rfl, rfl, by decide⟩

/-- The luminance example from the claim: `#577399` has relative luminance at
most one half, so the derived text color is white. -/
example : (customColorTheme "#577399").text = "white" := by
  have h : (customColorTheme "#577399").text =
      if (0.2126 * ((87 : Nat) : ℚ) + 0.7152 * ((115 : Nat) : ℚ)
          + 0.0722 * ((153 : Nat) : ℚ)) / 255 > 0.5
      then "black" else "white" := rfl
  rw [h, if_neg]
  norm_num

/-- A necessary property of a well-formed `rgba(...)` string with numeric
channels: every character is a digit or one of the literal characters of the
template. -/
def rgbaNumericChars (s : String) : Bool :=
  s.toList.all (fun c => c.isDigit || ['r', 'g', 'b', 'a', '(', ')', ',', ' ', '.'].contains c)

/-- C10: the validation pattern admits `#zzz`, which is made of letters that
are not hex digits; channel parsing then yields `NaN` and the stored `bright`
and `light` are the strings `rgba(NaN, NaN, NaN, 1)` and
`rgba(NaN, NaN, NaN, 0.2)`, which are not well-formed numeric color strings
(they contain the letter `N`), while every `NaN` comparison being false makes
the text color white. Passing validation therefore does not guarantee a
well-formed derived theme. -/
theorem customColorTheme_accepts_nonhex_nan :
    hexRegexTest "#zzz" = true ∧
    jsParseIntHex (strSlice (expandShorthand "#zzz") 1 3) = Option.none ∧
    (customColorTheme "#zzz").bright = "rgba(NaN, NaN, NaN, 1)" ∧
    (customColorTheme "#zzz").light = "rgba(NaN, NaN, NaN, 0.2)" ∧
    (customColorTheme "#zzz").text = "white" ∧
    rgbaNumericChars (customColorTheme "#zzz").bright = false ∧
    rgbaNumericChars (customColorTheme "#zzz").light = false ∧
    rgbaNumericChars "rgba(170, 187, 170, 1)" = true :=
  ⟨rfl, rfl, rfl, rfl, rfl, by decide, by decide, by decide⟩

/-!
## Record Normalizer (`removeObjects`, Table.js lines 67–83)

The component receives `objectKey` as an optional prop; the source reads
`objectKey.hasOwnProperty(property)` for every property of every row. When the
prop is not supplied, `objectKey` is `undefined` and this property access
throws a `TypeError` as soon as any row has at least one property. Reading a
sub-key from a primitive value yields `undefined` (string numeric indexing and
`length` are not exercised by the table and are not modelled); reading from
`undefined` throws.
-/

/-- JS property read `v[k]` on an arbitrary value. -/
def jsIndex (v : JSVal) (k : String) : Except String JSVal :=
  match v with
  | JSVal.vObj fields => Except.ok ((List.lookup k fields).getD JSVal.vUndef)
  | JSVal.vUndef => Except.error "TypeError: Cannot read properties of undefined"
  | _ => Except.ok JSVal.vUndef

/-- Effectful `map` over a list, left to right, first error wins (the order in
which JS evaluates the body of `forEach` / `for...in` loops and `map`). -/
def mapE {α β : Type} (f : α → Except String β) : List α → Except String (List β)
  | [] => Except.ok []
  | x :: xs => do
      let y ← f x
      let ys ← mapE f xs
      pure (y :: ys)

/-- `removeObjects(content)` from the source; `objectKey` is the optional
`objectKey` prop (`Option.none` models the prop not being supplied). -/
def removeObjects (objectKey : Option (List (String × String))) (content : List JSRow) :
    Except String (List JSRow) :=
  mapE (fun row =>
    mapE (fun pv =>
      match objectKey with
      | Option.none =>
          Except.error "TypeError: Cannot read properties of undefined (reading hasOwnProperty)"
      | some km =>
          match List.lookup pv.1 km with
          | some replacementProperty => do
              let v ← jsIndex pv.2 replacementProperty
              pure (pv.1, v)
          | Option.none => pure (pv.1, pv.2)) row) content

/-- C2: with a supplied flatten map, properties absent from the map pass
through unchanged and configured sub-objects are flattened, one normalized
record per input record — but when the `objectKey` prop is NOT supplied,
`objectKey.hasOwnProperty(property)` throws a `TypeError` on the very first
property of the first record, so an absent flatten map is not a supported
input: the component crashes on any non-empty content. -/
theorem removeObjects_undefined_objectKey_bug :
    removeObjects (some [("animals", "pastFavorite")])
      [[("animal", JSVal.vStr "manatee"),
        ("animals", JSVal.vObj [("pastFavorite", JSVal.vStr "unicorn"),
                                ("currentFavorite", JSVal.vStr "panda")])]]
      = Except.ok [[("animal", JSVal.vStr "manatee"),
                    ("animals", JSVal.vStr "unicorn")]] ∧
    removeObjects (some []) [[("animal", JSVal.vStr "manatee")]]
      = Except.ok [[("animal", JSVal.vStr "manatee")]] ∧
    removeObjects Option.none [[("animal", JSVal.vStr "manatee")]]
      = Except.error
          "TypeError: Cannot read properties of undefined (reading hasOwnProperty)" :=
  ⟨rfl, rfl, rfl⟩

/-!
## Sort Engine state (`toggleSortOrder`, Table.js lines 158–169)

The sort state is the JS object `sorting`, one of `"none"`, `"ascending"`,
`"descending"` per column key, in insertion order. `toggleSortOrder` copies
the object, resets every key to `"none"`, then sets the target key from the
PREVIOUS state: `"none"`/`"descending"` become `"ascending"`, anything else
(i.e. `"ascending"`; also `undefined` for an unknown key) becomes
`"descending"`.
-/

/-- The three sort states of a column. -/
inductive SortDir where
  | none
  | ascending
  | descending
deriving DecidableEq, Repr

/-- The sort state: column key to `SortDir`, in insertion order. -/
abbrev SortMap := List (String × SortDir)

/-- JS property write `obj[k] = v`: update the entry in place if the key
exists, else append it. -/
def setProp {α : Type} (k : String) (v : α) : List (String × α) → List (String × α)
  | [] => [(k, v)]
  | (k', v') :: rest => if k' = k then (k, v) :: rest else (k', v') :: setProp k v rest

/-- `toggleSortOrder(category)` from the source. -/
def toggleSortOrder (sorting : SortMap) (category : String) : SortMap :=
  let newSorting := sorting.map (fun p => (p.1, SortDir.none))
  let nv :=
    match List.lookup category sorting with
    | some SortDir.none => SortDir.ascending
    | some SortDir.descending => SortDir.ascending
    | _ => SortDir.descending
  setProp category nv newSorting

/-- The successor in the claimed 3-state cycle
`none → ascending → descending → ascending → …`. -/
def nextSortDir : SortDir → SortDir
  | SortDir.ascending => SortDir.descending
  | _ => SortDir.ascending

theorem lookup_setProp_self {α : Type} (m : List (String × α)) (k : String) (v : α) :
    List.lookup k (setProp k v m) = some v := by
  induction m with
  | nil => simp [setProp, List.lookup]
  | cons p rest ih =>
      obtain ⟨k', v'⟩ := p
      by_cases h : k' = k
      · subst h
        simp [setProp, List.lookup]
      · have hbeq : (k == k') = false := beq_eq_false_iff_ne.mpr fun hh => h hh.symm
        simp only [setProp, if_neg h, List.lookup, hbeq]
        exact ih

theorem all_setProp_of_all_none (m : SortMap) (k : String) (v : SortDir)
    (h : ∀ p ∈ m, p.2 = SortDir.none) :
    (setProp k v m).all (fun p => p.1 == k || p.2 == SortDir.none) = true := by
  induction m with
  | nil => simp [setProp]
  | cons p rest ih =>
      simp only [setProp]
      by_cases hk : p.1 = k
      · rw [if_pos hk]
        simp only [List.all_cons, Bool.and_eq_true]
        constructor
        · simp
        · rw [List.all_eq_true]
          intro q hq
          have := h q (List.mem_cons_of_mem _ hq)
          simp [this]
      · rw [if_neg hk]
        simp only [List.all_cons, Bool.and_eq_true]
        constructor
        · have := h p (List.mem_cons_self _ _)
          simp [this]
        · exact ih (fun q hq => h q (List.mem_cons_of_mem _ hq))

/-- C5: one `toggleSort` step. If the column currently has state `d`, its new
state is the successor of `d` in the 3-state cycle
`none → ascending → descending → ascending → …`, and every entry of the new
sort state other than the toggled column is `none`: at most one column is
active after any toggle. -/
theorem toggleSortOrder_cycle_and_reset (sorting : SortMap) (cat : String) (d : SortDir)
    (h : List.lookup cat sorting = some d) :
    List.lookup cat (toggleSortOrder sorting cat) = some (nextSortDir d) ∧
    (toggleSortOrder sorting cat).all
      (fun p => p.1 == cat || p.2 == SortDir.none) = true := by
  constructor
  · show List.lookup cat (setProp cat _ _) = _
    rw [lookup_setProp_self]
    rw [h]
    cases d <;> rfl
  · refine all_setProp_of_all_none _ cat _ ?_
    intro p hp
    obtain ⟨q, _, rfl⟩ := List.mem_map.mp hp
    rfl

/-- Witness for C5 at a concrete sort state: toggling `a` while it is
`ascending` makes it `descending` and leaves every other column `none`. -/
theorem toggleSortOrder_cycle_and_reset_witness :
    List.lookup "a" (toggleSortOrder [("a", SortDir.ascending), ("b", SortDir.none)] "a")
      = some (nextSortDir SortDir.ascending) ∧
    (toggleSortOrder [("a", SortDir.ascending), ("b", SortDir.none)] "a").all
      (fun p => p.1 == "a" || p.2 == SortDir.none) = true :=
  toggleSortOrder_cycle_and_reset [("a", SortDir.ascending), ("b", SortDir.none)] "a"
    SortDir.ascending rfl

/-!
## Sort Engine comparator (`sortContent`, Table.js lines 143–151)

The comparator reads `a[category].toLowerCase()` directly: there is NO
coercion to string, so a number, boolean, `undefined` (missing property) or
nested object in the sort column throws `TypeError` as soon as the comparator
runs (it runs at least once whenever the array has two or more elements).
`localeCompare` on the lowercased ASCII strings of the table is modelled by
the standard ordering on strings. `[...content].sort(...)` is a stable sort
that does not mutate its input; it is modelled by a stable insertion sort in
the `Except` monad, so an error is raised exactly when some performed
comparison involves a non-string value.
-/

/-- `v.toLowerCase()`: only strings have this method. -/
def jsToLower (v : JSVal) : Except String String :=
  match v with
  | JSVal.vStr s => Except.ok (strLower s)
  | _ => Except.error "TypeError: toLowerCase is not a function"

/-- Is this value a string? -/
def JSVal.isStr : JSVal → Bool
  | JSVal.vStr _ => true
  | _ => false

/-- The sort-direction condition of the comparator:
`((sorting[category] === "none" || sorting[category] === "descending") && toggleOrder)
 || (sorting[category] === "ascending" && !toggleOrder)` selects the
ascending comparison. -/
def sortAscCond (st : Option SortDir) (toggleOrder : Bool) : Bool :=
  ((st == some SortDir.none || st == some SortDir.descending) && toggleOrder)
    || (st == some SortDir.ascending && !toggleOrder)

/-- The comparator passed to `sort`, reading the ambient `sorting` state. -/
def sortCmp (sorting : SortMap) (category : String) (toggleOrder : Bool)
    (a b : JSRow) : Except String Ordering :=
  if sortAscCond (List.lookup category sorting) toggleOrder then do
    let al ← jsToLower (jsGet a category)
    let bl ← jsToLower (jsGet b category)
    pure (compare al bl)
  else do
    let bl ← jsToLower (jsGet b category)
    let al ← jsToLower (jsGet a category)
    pure (compare bl al)

/-- Stable insertion of `x` into an already sorted list, under an effectful
comparator: `x` is placed before the first element it does not compare
greater than, so elements comparing equal keep their original relative
order. -/
def insertE {α : Type} (cmp : α → α → Except String Ordering) (x : α) :
    List α → Except String (List α)
  | [] => Except.ok [x]
  | y :: ys => do
      let c ← cmp x y
      match c with
      | Ordering.gt => do
          let rest ← insertE cmp x ys
          pure (y :: rest)
      | _ => pure (x :: y :: ys)

/-- Stable sort under an effectful comparator (models
`[...content].sort(comparator)`, which is stable and non-mutating). -/
def sortE {α : Type} (cmp : α → α → Except String Ordering) :
    List α → Except String (List α)
  | [] => Except.ok []
  | x :: xs => do
      let rest ← sortE cmp xs
      insertE cmp x rest

/-- `sortContent(content, category, toggleOrder)` from the source, with the
ambient `sorting` state made explicit. -/
def sortContent (sorting : SortMap) (content : List JSRow) (category : String)
    (toggleOrder : Bool) : Except String (List JSRow) :=
  sortE (sortCmp sorting category toggleOrder) content

theorem okBind {α β : Type} (a : α) (f : α → Except String β) :
    (Except.ok a >>= f : Except String β) = f a := rfl

theorem pureOk {α : Type} (a : α) : (pure a : Except String α) = Except.ok a := rfl

theorem isStr_exists {v : JSVal} (h : v.isStr = true) : ∃ s, v = JSVal.vStr s := by
  cases v with
  | vStr s => exact ⟨s, rfl⟩
  | vNum n => exact absurd h (by simp [JSVal.isStr])
  | vBool b => exact absurd h (by simp [JSVal.isStr])
  | vUndef => exact absurd h (by simp [JSVal.isStr])
  | vObj o => exact absurd h (by simp [JSVal.isStr])

theorem insertE_ok {α : Type} (cmp : α → α → Except String Ordering) (x : α)
    (l : List α) (h : ∀ y ∈ l, ∃ o, cmp x y = Except.ok o) :
    ∃ r, insertE cmp x l = Except.ok r ∧ ∀ z ∈ r, z = x ∨ z ∈ l := by
  induction l with
  | nil =>
      refine ⟨[x], rfl, ?_⟩
      intro z hz
      simp at hz
      exact Or.inl hz
  | cons y ys ih =>
      obtain ⟨o, ho⟩ := h y (List.mem_cons_self _ _)
      obtain ⟨r, hr, hmem⟩ := ih (fun z hz => h z (List.mem_cons_of_mem _ hz))
      cases o with
      | gt =>
          refine ⟨y :: r, ?_, ?_⟩
          · simp [insertE, ho, hr, okBind]
          · intro z hz
            rcases List.mem_cons.mp hz with hz | hz
            · exact Or.inr (by simp [hz])
            · rcases hmem z hz with hz2 | hz2
              · exact Or.inl hz2
              · exact Or.inr (List.mem_cons_of_mem _ hz2)
      | lt =>
          refine ⟨x :: y :: ys, by simp [insertE, ho, okBind, pureOk], ?_⟩
          intro z hz
          rcases List.mem_cons.mp hz with hz | hz
          · exact Or.inl hz
          · exact Or.inr hz
      | eq =>
          refine ⟨x :: y :: ys, by simp [insertE, ho, okBind, pureOk], ?_⟩
          intro z hz
          rcases List.mem_cons.mp hz with hz | hz
          · exact Or.inl hz
          · exact Or.inr hz

theorem sortE_ok {α : Type} (cmp : α → α → Except String Ordering) (l : List α)
    (h : ∀ x ∈ l, ∀ y ∈ l, ∃ o, cmp x y = Except.ok o) :
    ∃ r, sortE cmp l = Except.ok r ∧ ∀ z ∈ r, z ∈ l := by
  induction l with
  | nil => exact ⟨[], rfl, by simp⟩
  | cons x xs ih =>
      obtain ⟨r, hr, hsub⟩ := ih (fun a ha b hb =>
        h a (List.mem_cons_of_mem _ ha) b (List.mem_cons_of_mem _ hb))
      obtain ⟨r2, hr2, hmem2⟩ := insertE_ok cmp x r (fun y hy =>
        h x (List.mem_cons_self _ _) y (List.mem_cons_of_mem _ (hsub y hy)))
      refine ⟨r2, ?_, ?_⟩
      · simp [sortE, hr, hr2, okBind]
      · intro z hz
        rcases hmem2 z hz with hz2 | hz2
        · simp [hz2]
        · exact List.mem_cons_of_mem _ (hsub z hz2)

/-- C4 counterexample: the comparator does NOT coerce non-strings. Sorting two
rows whose sort-column values are numbers throws `TypeError` (the header-click
call `sortContent(filteredContent, category, true)` with the column still
`none`), instead of comparing coerced strings. -/
theorem sortContent_nonstring_error :
    sortContent [("k", SortDir.none)]
      [[("k", JSVal.vNum 2)], [("k", JSVal.vNum 1)]] "k" true
      = Except.error "TypeError: toLowerCase is not a function" ∧
    (sortContent [("k", SortDir.none)]
      [[("k", JSVal.vNum 2)], [("k", JSVal.vNum 1)]] "k" true).isOk = false :=
  ⟨rfl, rfl⟩

/-- C4 (amended): `sortContent` never throws when every row's value in the
sort column is a string — the case-insensitive comparison proceeds and a
sorted copy is returned; with a non-string value it throws instead of
coercing (see `sortContent_nonstring_error`). -/
theorem sortContent_ok_of_string_values (sorting : SortMap) (category : String)
    (toggleOrder : Bool) (content : List JSRow)
    (h : ∀ row ∈ content, (jsGet row category).isStr = true) :
    (sortContent sorting content category toggleOrder).isOk = true := by
  have hcmp : ∀ a ∈ content, ∀ b ∈ content,
      ∃ o, sortCmp sorting category toggleOrder a b = Except.ok o := by
    intro a ha b hb
    obtain ⟨sa, hva⟩ := isStr_exists (h a ha)
    obtain ⟨sb, hvb⟩ := isStr_exists (h b hb)
    cases hc : sortAscCond (List.lookup category sorting) toggleOrder
    · exact ⟨compare (strLower sb) (strLower sa),
        by simp [sortCmp, hc, hva, hvb, jsToLower, okBind]⟩
    · exact ⟨compare (strLower sa) (strLower sb),
        by simp [sortCmp, hc, hva, hvb, jsToLower, okBind]⟩
  obtain ⟨r, hr, _⟩ := sortE_ok (sortCmp sorting category toggleOrder) content hcmp
  unfold sortContent
  rw [hr]
  rfl

/-- Witness for the amended C4 at a concrete all-string collection. -/
theorem sortContent_ok_of_string_values_witness :
    (sortContent [("k", SortDir.none)]
      [[("k", JSVal.vStr "b")], [("k", JSVal.vStr "a")]] "k" true).isOk = true :=
  sortContent_ok_of_string_values [("k", SortDir.none)] "k" true
    [[("k", JSVal.vStr "b")], [("k", JSVal.vStr "a")]] (by decide)

/-!
## Filter Engine (`filterContent`, Table.js lines 177–191)

For each row, `Object.values(row)` is mapped through
`value.toLowerCase().includes(query.toLowerCase())` (so every value is
lowercased, throwing on non-strings even after a match was found), and the row
passes when some mapped entry is `true` — an empty row has no values and never
passes, whatever the query. After filtering, the source scans `sorting` in
insertion order and, at the FIRST category whose state is not `"none"`,
returns `sortContent(newContent, category, false)`: the active direction is
read from the same `sorting` state, so it is preserved, not toggled.
-/

/-- Effectful `Array.prototype.filter`: the predicate is evaluated on every
element, left to right, and the first thrown error propagates. -/
def filterE {α : Type} (p : α → Except String Bool) : List α → Except String (List α)
  | [] => Except.ok []
  | x :: xs => do
      let b ← p x
      let rest ← filterE p xs
      pure (if b then x :: rest else rest)

/-- The filter predicate of one row. -/
def rowMatches (query : String) (row : JSRow) : Except String Bool := do
  let mapped ← mapE (fun v => do
      let lv ← jsToLower v
      pure (strIncludes lv (strLower query))) (row.map Prod.snd)
  pure (mapped.contains true)

/-- The `for(const category in sorting)` scan: the first category whose state
is not `"none"`, if any. -/
def findActiveSort (sorting : SortMap) : Option (String × SortDir) :=
  sorting.find? (fun p => decide (p.2 ≠ SortDir.none))

/-- `filterContent(query, content)` from the source, with the ambient
`sorting` state made explicit. -/
def filterContent (sorting : SortMap) (query : String) (content : List JSRow) :
    Except String (List JSRow) :=
  (filterE (rowMatches query) content) >>= fun newContent =>
    match findActiveSort sorting with
    | some p => sortContent sorting newContent p.1 false
    | Option.none => pure newContent

/-- The comparison that an active direction `d` denotes, per the spec's words:
`ascending` compares the lowercased values in natural order, `descending` in
the reversed order. -/
def cmpOfDir : SortDir → String → JSRow → JSRow → Except String Ordering
  | SortDir.ascending, category, a, b => do
      let al ← jsToLower (jsGet a category)
      let bl ← jsToLower (jsGet b category)
      pure (compare al bl)
  | _, category, a, b => do
      let bl ← jsToLower (jsGet b category)
      let al ← jsToLower (jsGet a category)
      pure (compare bl al)

theorem sortCmp_false_eq_cmpOfDir (sorting : SortMap) (cat : String) (d : SortDir)
    (hlook : List.lookup cat sorting = some d) :
    sortCmp sorting cat false = cmpOfDir d cat := by
  funext a b
  unfold sortCmp sortAscCond
  rw [hlook]
  cases d <;> simp [cmpOfDir]

/-- C6: whenever some column has an active sort direction `d` (the first
non-`none` entry that the source's `for...in` scan finds, which is also that
column's state), filtering returns the filtered rows re-sorted by that column
under the comparison that `d` already denotes — ascending stays ascending and
descending stays descending, because `toggleOrder` is passed as `false` and
the direction is read back from the same `sorting` state. -/
theorem filterContent_preserves_active_sort (sorting : SortMap) (query : String)
    (content : List JSRow) (cat : String) (d : SortDir)
    (hfind : findActiveSort sorting = some (cat, d))
    (hlook : List.lookup cat sorting = some d) :
    filterContent sorting query content
      = (filterE (rowMatches query) content) >>= sortE (cmpOfDir d cat) := by
  unfold filterContent
  rw [hfind]
  have h : (fun newContent => sortContent sorting newContent cat false)
      = sortE (cmpOfDir d cat) := by
    funext newContent
    unfold sortContent
    rw [sortCmp_false_eq_cmpOfDir sorting cat d hlook]
  rw [← h]

/-- Witness for C6 at a concrete state: with `k` descending, filtering with
query `"a"` returns the filtered rows sorted descending by `k`. -/
theorem filterContent_preserves_active_sort_witness :
    filterContent [("k", SortDir.descending)] "a"
      [[("k", JSVal.vStr "ab")], [("k", JSVal.vStr "ba")]]
      = (filterE (rowMatches "a")
          [[("k", JSVal.vStr "ab")], [("k", JSVal.vStr "ba")]])
          >>= sortE (cmpOfDir SortDir.descending "k") :=
  filterContent_preserves_active_sort [("k", SortDir.descending)] "a"
    [[("k", JSVal.vStr "ab")], [("k", JSVal.vStr "ba")]] "k" SortDir.descending rfl rfl

theorem strLower_empty : strLower "" = "" := rfl

theorem strIncludes_empty (s : String) : strIncludes s "" = true := by
  unfold strIncludes
  cases s.toList <;> simp [includesFrom, leadsWith]

theorem mapE_ok_of {α β : Type} (f : α → Except String β) (g : α → β) (l : List α)
    (h : ∀ x ∈ l, f x = Except.ok (g x)) : mapE f l = Except.ok (l.map g) := by
  induction l with
  | nil => rfl
  | cons x xs ih =>
      simp [mapE, h x (List.mem_cons_self _ _),
        ih (fun z hz => h z (List.mem_cons_of_mem _ hz)), okBind, pureOk]

theorem rowMatches_empty_query (row : JSRow) (h1 : row.isEmpty = false)
    (h2 : ∀ pv ∈ row, (pv.2).isStr = true) : rowMatches "" row = Except.ok true := by
  unfold rowMatches
  have hmap : mapE (fun v => do
      let lv ← jsToLower v
      pure (strIncludes lv (strLower ""))) (row.map Prod.snd)
      = Except.ok ((row.map Prod.snd).map (fun _ => true)) := by
    refine mapE_ok_of _ _ _ ?_
    intro v hv
    obtain ⟨pv, hpv, rfl⟩ := List.mem_map.mp hv
    obtain ⟨s, hs⟩ := isStr_exists (h2 pv hpv)
    rw [hs]
    simp [jsToLower, okBind, pureOk, strLower_empty, strIncludes_empty]
  rw [hmap, okBind]
  match row, h1 with
  | pv :: rest, _ => simp [pureOk]

theorem filterE_all_true {α : Type} (p : α → Except String Bool) (l : List α)
    (h : ∀ x ∈ l, p x = Except.ok true) : filterE p l = Except.ok l := by
  induction l with
  | nil => rfl
  | cons x xs ih =>
      simp [filterE, h x (List.mem_cons_self _ _),
        ih (fun z hz => h z (List.mem_cons_of_mem _ hz)), okBind, pureOk]

/-- C9 counterexample: the claim fails as stated, universally over normalized
record collections. A collection whose single record holds a number makes the
filter body call `toLowerCase` on a non-string and throw, even for the empty
query, so the full collection is not returned. (Two further boundary cases
also break the universal claim: a record with no properties maps to an empty
value list, so `[].includes(true)` is `false` and the record is dropped; and
an active sort reorders the output.) -/
theorem filterContent_empty_query_not_identity :
    filterContent [("a", SortDir.none)] "" [[("a", JSVal.vNum 5)]]
      = Except.error "TypeError: toLowerCase is not a function" ∧
    filterContent [("a", SortDir.none)] "" [[("a", JSVal.vNum 5)]]
      ≠ Except.ok [[("a", JSVal.vNum 5)]] :=
  ⟨rfl, fun h => nomatch h⟩

/-- C9 (amended): filtering with the empty query returns the full collection
unchanged, in order, provided no column has an active sort direction and every
record is non-empty with only string values (the conditions under which the
filter body and the post-filter re-sort leave the collection alone). -/
theorem filterContent_empty_query_identity (sorting : SortMap) (content : List JSRow)
    (hns : findActiveSort sorting = Option.none)
    (hrows : ∀ row ∈ content, row.isEmpty = false ∧ ∀ pv ∈ row, (pv.2).isStr = true) :
    filterContent sorting "" content = Except.ok content := by
  unfold filterContent
  rw [filterE_all_true _ _ (fun row hrow =>
    rowMatches_empty_query row (hrows row hrow).1 (hrows row hrow).2)]
  rw [okBind, hns]
  rfl

/-- Witness for the amended C9 at a concrete collection. -/
theorem filterContent_empty_query_identity_witness :
    filterContent [("a", SortDir.none)] ""
      [[("a", JSVal.vStr "x")], [("a", JSVal.vStr "y"), ("b", JSVal.vStr "z")]]
      = Except.ok
        [[("a", JSVal.vStr "x")], [("a", JSVal.vStr "y"), ("b", JSVal.vStr "z")]] :=
  filterContent_empty_query_identity [("a", SortDir.none)]
    [[("a", JSVal.vStr "x")], [("a", JSVal.vStr "y"), ("b", JSVal.vStr "z")]]
    rfl (by decide)

/-!
## Value Renderer (`renderProperty`, Table.js lines 221–232)

The source's date test is

    dayjs(row[c]).isValid() && row[c] === dayjs(row[c]).toISOString()

Modelled from the library behavior of `dayjs` (an external dependency):
`toISOString` always returns the canonical UTC form `YYYY-MM-DDTHH:mm:ss.sssZ`
(for years 0–9999), so a value passes the strict-equality round-trip exactly
when it is a STRING already in that canonical form denoting a real instant —
`dayjs` hands strings ending in `Z` to `new Date(...)`, which rejects
out-of-range components such as February 30th, and non-strings can never be
strictly equal to the `toISOString` string. `format` is modelled for the
tokens `YYYY`, `YY`, `MM`, `DD` used by the spec's patterns (other characters
are literal), and the environment's local time zone is assumed to be UTC so
that formatting shows the parsed components themselves.
-/

/-- The components of a canonical ISO-8601 UTC instant. -/
structure DateParts where
  year : Nat
  month : Nat
  day : Nat
  hour : Nat
  minute : Nat
  second : Nat
  millis : Nat
deriving DecidableEq, Repr

/-- Gregorian leap year, as implemented by JS `Date`. -/
def isLeap (y : Nat) : Bool :=
  (y % 4 == 0 && y % 100 != 0) || y % 400 == 0

/-- Days in a month, as implemented by JS `Date`. -/
def daysInMonth (y m : Nat) : Nat :=
  if m = 2 then (if isLeap y then 29 else 28)
  else if m = 4 ∨ m = 6 ∨ m = 9 ∨ m = 11 then 30
  else 31

/-- Numeric value of two decimal digit characters. -/
def digit2 (a b : Char) : Nat :=
  (a.toNat - 48) * 10 + (b.toNat - 48)

/-- The `dayjs(v).isValid() && v === dayjs(v).toISOString()` test on a string:
`some` of the parsed components exactly when the string is canonical ISO-8601
UTC (`YYYY-MM-DDTHH:mm:ss.sssZ`) and denotes a real instant. -/
def parseCanonicalISO (s : String) : Option DateParts :=
  match s.toList with
  | [y1, y2, y3, y4, '-', m1, m2, '-', d1, d2, 'T',
     h1, h2, ':', n1, n2, ':', s1, s2, '.', f1, f2, f3, 'Z'] =>
      if [y1, y2, y3, y4, m1, m2, d1, d2, h1, h2, n1, n2, s1, s2, f1, f2, f3].all
          Char.isDigit then
        let y := digit2 y1 y2 * 100 + digit2 y3 y4
        let mo := digit2 m1 m2
        let d := digit2 d1 d2
        let h := digit2 h1 h2
        let mi := digit2 n1 n2
        let se := digit2 s1 s2
        let ms := digit2 f1 f2 * 10 + (f3.toNat - 48)
        if 1 ≤ mo ∧ mo ≤ 12 ∧ 1 ≤ d ∧ d ≤ daysInMonth y mo ∧ h ≤ 23 ∧ mi ≤ 59 ∧ se ≤ 59
        then some ⟨y, mo, d, h, mi, se, ms⟩
        else Option.none
      else Option.none
  | _ => Option.none

/-- A number as two decimal digit characters, zero-padded. -/
def pad2 (n : Nat) : List Char :=
  if n < 10 then '0' :: (toString n).toList else (toString n).toList

/-- A year as four decimal digit characters, zero-padded. -/
def pad4 (n : Nat) : List Char :=
  List.replicate (4 - (toString n).length) '0' ++ (toString n).toList

/-- The `dayjs` format tokens used by the table's date patterns: `YYYY`, `YY`,
`MM`, `DD`; every other character is copied literally. -/
def fmtTokens (d : DateParts) : List Char → List Char
  | 'Y' :: 'Y' :: 'Y' :: 'Y' :: rest => pad4 d.year ++ fmtTokens d rest
  | 'Y' :: 'Y' :: rest => pad2 (d.year % 100) ++ fmtTokens d rest
  | 'M' :: 'M' :: rest => pad2 d.month ++ fmtTokens d rest
  | 'D' :: 'D' :: rest => pad2 d.day ++ fmtTokens d rest
  | c :: rest => c :: fmtTokens d rest
  | [] => []

/-- `dayjs(value).format(pattern)` under the UTC-environment assumption. -/
def formatDate (pattern : String) (d : DateParts) : String :=
  String.mk (fmtTokens d pattern.toList)

/-- `renderProperty(row, category)` from the source; `dateFormat` is the
optional `dateFormat` prop. A missing property renders nothing
(`Option.none`, JS `undefined`). -/
def renderProperty (dateFormat : Option String) (row : JSRow) (category : String) :
    Option JSVal :=
  if jsHasOwn row category then
    some (match jsGet row category with
      | JSVal.vStr s =>
          match parseCanonicalISO s with
          | some d =>
              match dateFormat with
              | some fmt => JSVal.vStr (formatDate fmt d)
              | Option.none => JSVal.vStr (formatDate "DD/MM/YYYY" d)
          | Option.none => JSVal.vStr s
      | v => v)
  else Option.none

/-- C7: a present value is date-formatted exactly when it passes the
parse-and-round-trip test (`parseCanonicalISO`), using the caller's pattern or
the default `DD/MM/YYYY`; any other present value is rendered unchanged, and a
missing property renders nothing. Concretely,
`"2023-05-01T00:00:00.000Z"` renders as `"01/05/2023"` by default and as
`"05/01/23"` under `MM/DD/YY`, while the non-round-tripping `"2023-05-01"`,
the invalid `"2023-02-30T00:00:00.000Z"` and a number pass through. -/
theorem renderProperty_date_detection :
    (∀ fmt (row : JSRow) cat, jsHasOwn row cat = false →
      renderProperty fmt row cat = Option.none) ∧
    (∀ fmt (row : JSRow) cat s, jsHasOwn row cat = true → jsGet row cat = JSVal.vStr s →
      parseCanonicalISO s = Option.none → renderProperty fmt row cat = some (JSVal.vStr s)) ∧
    (∀ fmt (row : JSRow) cat s d, jsHasOwn row cat = true → jsGet row cat = JSVal.vStr s →
      parseCanonicalISO s = some d →
      renderProperty fmt row cat = some (JSVal.vStr (formatDate (fmt.getD "DD/MM/YYYY") d))) ∧
    renderProperty Option.none [("date", JSVal.vStr "2023-05-01T00:00:00.000Z")] "date"
      = some (JSVal.vStr "01/05/2023") ∧
    renderProperty (some "MM/DD/YY") [("date", JSVal.vStr "2023-05-01T00:00:00.000Z")] "date"
      = some (JSVal.vStr "05/01/23") ∧
    renderProperty Option.none [("date", JSVal.vStr "2023-05-01")] "date"
      = some (JSVal.vStr "2023-05-01") ∧
    renderProperty Option.none [("date", JSVal.vStr "2023-02-30T00:00:00.000Z")] "date"
      = some (JSVal.vStr "2023-02-30T00:00:00.000Z") ∧
    renderProperty Option.none [("n", JSVal.vNum 20230501)] "n"
      = some (JSVal.vNum 20230501) := by
  refine ⟨?_, ?_, ?_, rfl, rfl, rfl, rfl, rfl⟩
  · intro fmt row cat h
    simp [renderProperty, h]
  · intro fmt row cat s hhas hget hparse
    simp [renderProperty, hhas, hget, hparse]
  · intro fmt row cat s d hhas hget hparse
    cases fmt with
    | none => simp [renderProperty, hhas, hget, hparse, Option.getD]
    | some p => simp [renderProperty, hhas, hget, hparse, Option.getD]

/-- Witness for C7: an ordinary string value passes through unchanged. -/
theorem renderProperty_date_detection_witness :
    renderProperty Option.none [("a", JSVal.vStr "hello")] "a"
      = some (JSVal.vStr "hello") :=
  renderProperty_date_detection.2.1 Option.none [("a", JSVal.vStr "hello")] "a" "hello"
    rfl rfl rfl
